import Mathlib

/-!
Verification development for the `datatribe-vectorizer` repository
(`src/converter.py`), a PNG-to-SVG conversion utility.

The embedding is shallow.  The external libraries (PIL, rembg, vtracer)
are opaque collaborators, so an in-memory image is modelled as its PIL
mode string together with the ordered list of opaque pixel operations
that have been applied to it; the filesystem is an association list
from paths to entries; each external call may be made to raise via an
environment of success flags, which lets us quantify over every exit
path of the pipeline.  Python `str` functions used by the source
(`str.replace`, `os.path.dirname`, `os.path.basename`,
`os.path.splitext`, `os.path.join`) are modelled on `List Char`.
-/

/-- Exceptions that the conversion pipeline can raise, one per
fallible step of `convert_to_svg`. -/
inductive PyErr where
  | fileNotFound
  | decodeErr
  | removeErr
  | preErr
  | saveErr
  | traceErr
deriving DecidableEq

/-- Opaque pixel-level operations applied to an in-memory image.
The filter constructors mirror the PIL calls made by
`preprocess_image`; `removeBg` mirrors the `rembg.remove` call. -/
inductive ImgOp where
  | gaussianBlur (radius : Rat)
  | unsharpMask (radius percent threshold : Nat)
  | sharpen
  | contrast (factor : Rat)
  | color (factor : Rat)
  | removeBg
deriving DecidableEq

/-- An in-memory PIL image: its mode string (e.g. "RGBA") and the
ordered history of opaque pixel operations applied to it.  Pixel
content is abstract: two images built from the same source by the
same operations are equal. -/
structure Image where
  mode : String
  ops : List ImgOp
deriving DecidableEq

/-- `img.convert(m)`: PIL mode conversion.  It re-encodes pixels but
applies no filter, so the operation history is unchanged. -/
def Image.convert (img : Image) (m : String) : Image :=
  Image.mk m img.ops

/-- `img.filter(op)` / `ImageEnhance.*(img).enhance(f)`: appends one
opaque pixel operation to the image's history. -/
def Image.filter (img : Image) (op : ImgOp) : Image :=
  Image.mk img.mode (img.ops ++ [op])

/-- `preprocess_image` from `src/converter.py` (lines 23-64):
normalize to RGBA, then, when `enhance_edges` is set, apply either the
ultra-quality chain (gaussian blur 0.5, unsharp mask 2/150/3, contrast
1.4, color 1.1) or the standard chain (sharpen, contrast 1.2). -/
def preprocess_image (img : Image) (enhance_edges ultra_quality : Bool) : Image :=
  let img := if img.mode ≠ "RGBA" then Image.convert img "RGBA" else img
  if enhance_edges then
    if ultra_quality then
      let i1 := Image.filter img (ImgOp.gaussianBlur 0.5)
      let i2 := Image.filter i1 (ImgOp.unsharpMask 2 150 3)
      let i3 := Image.filter i2 (ImgOp.contrast 1.4)
      Image.filter i3 (ImgOp.color 1.1)
    else
      let i1 := Image.filter img ImgOp.sharpen
      Image.filter i1 (ImgOp.contrast 1.2)
  else img

/-- Python `str.replace` for a nonempty pattern, on character lists:
replaces every non-overlapping occurrence, scanning left to right.
The fuel argument is instantiated with the list length, which bounds
the recursion depth; when the pattern is empty the function is the
identity (the source only ever calls it with the pattern ".png"). -/
def pyReplaceGo (pat repl : List Char) : Nat → List Char → List Char
  | _, [] => []
  | 0, l => l
  | n + 1, c :: rest =>
    if pat ≠ [] ∧ pat.isPrefixOf (c :: rest) then
      repl ++ pyReplaceGo pat repl n (List.drop (pat.length - 1) rest)
    else
      c :: pyReplaceGo pat repl n rest

/-- Python `s.replace(pat, repl)` for a nonempty `pat`. -/
def pyReplace (s pat repl : String) : String :=
  String.mk (pyReplaceGo pat.data repl.data s.data.length s.data)

/-- The staged temporary file path computed at `src/converter.py`
lines 132 and 138: `input_path.replace('.png', '_temp.png')`. -/
def stagedPath (input_path : String) : String :=
  pyReplace input_path ".png" "_temp.png"

/-- Python `pat in s` (substring test) on character lists. -/
def containsSub (pat : List Char) : List Char → Bool
  | [] => pat.isEmpty
  | c :: rest => pat.isPrefixOf (c :: rest) || containsSub pat rest

/-- The suffix after the last '/' of a path (the heart of
`os.path.basename`). -/
def afterLastSlash : List Char → List Char
  | [] => []
  | c :: rest =>
    if '/' ∈ rest then afterLastSlash rest
    else if c = '/' then rest else c :: rest

/-- `os.path.dirname` (POSIX): everything up to the last '/', with
trailing slashes stripped unless the head is all slashes. -/
def dirname (p : String) : String :=
  let cs := p.data
  let head := cs.take (cs.length - (afterLastSlash cs).length)
  if head.all (fun c => c == '/') then String.mk head
  else String.mk ((head.reverse.dropWhile (fun c => c == '/')).reverse)

/-- Helper for `splitextRoot`: for a list containing at least one '.',
the characters strictly before the last '.'. -/
def upToLastDot : List Char → List Char
  | [] => []
  | c :: rest => if '.' ∈ rest then c :: upToLastDot rest else []

/-- The root part of `os.path.splitext` on a separator-free filename
(the source only applies `splitext` to a basename): leading dots never
start an extension; after them, the name is cut at its last '.' when
one exists. -/
def splitextRoot (l : List Char) : List Char :=
  let lead := l.takeWhile (fun c => c == '.')
  let rest := l.dropWhile (fun c => c == '.')
  if '.' ∈ rest then lead ++ upToLastDot rest else l

/-- `os.path.join` (POSIX, two components). -/
def joinPath (a b : String) : String :=
  if b.data.head? = some '/' then b
  else if a.data = [] ∨ a.data.getLast? = some '/' then a ++ b
  else a ++ "/" ++ b

/-- Output-path resolution of `main'` when `--output-dir` is given
(`src/converter.py` lines 317-319): basename of the input, extension
replaced by ".svg", joined to the output directory. -/
def resolveOutputPath (output_dir input : String) : String :=
  let input_basename := afterLastSlash input.data
  let output_filename := String.mk (splitextRoot input_basename) ++ ".svg"
  joinPath output_dir output_filename

/-- File contents: a staged/input PNG carries its image; an SVG
produced by vtracer records the path it was traced from. -/
inductive FileData where
  | png (img : Image)
  | svg (source_path : String)
deriving DecidableEq

/-- A filesystem entry: a regular file or a directory. -/
inductive Entry where
  | file (d : FileData)
  | dir
deriving DecidableEq

/-- The filesystem, as an association list from paths to entries. -/
abbrev FS := List (String × Entry)

/-- `os.path.exists` / file lookup. -/
def fsLookup (fs : FS) (p : String) : Option Entry :=
  List.lookup p fs

/-- `os.path.exists`. -/
def fsExists (fs : FS) (p : String) : Bool :=
  (fsLookup fs p).isSome

/-- `os.remove` (also used to drop a stale binding before rebinding). -/
def fsErase (fs : FS) (p : String) : FS :=
  List.filter (fun e => e.1 != p) fs

/-- Write or overwrite the entry at a path. -/
def fsSet (fs : FS) (p : String) (e : Entry) : FS :=
  (p, e) :: fsErase fs p

/-- The observable calls a conversion makes into its collaborators:
decoding the input, the rembg Background Remover, the Preprocessor
(with the flags it was passed), saving an image to a path, and the
vtracer Vectorization Engine. -/
inductive Call where
  | decode (p : String)
  | removeBg
  | preprocess (enhance_edges ultra_quality : Bool)
  | save (p : String) (img : Image)
  | vtrace (src dst : String)
deriving DecidableEq

/-- Success flags for the fallible external steps; setting a flag to
`false` makes that step raise, which lets theorems quantify over every
exit path of `convert_to_svg`. -/
structure ExtEnv where
  decodeOk : Bool
  removeOk : Bool
  preOk : Bool
  saveOk : Bool
  traceOk : Bool
deriving DecidableEq

/-- `Image.open(input_path)`: succeeds when decoding is up and the
path holds a PNG file. -/
def decodeFile (ext : ExtEnv) (fs : FS) (p : String) : Option Image :=
  if ext.decodeOk then
    match fsLookup fs p with
    | some (Entry.file (FileData.png i)) => some i
    | _ => none
  else none

/-- The `try` block of `convert_to_svg` (`src/converter.py` lines
118-160).  Returns the outcome, the filesystem after the block, the
value of the `temp_file` variable at the moment the block exits
(normally or by exception), and the calls made.  Each external step
is atomic: when its `ExtEnv` flag is `false` it raises without touching
the filesystem. -/
def convertBody (ext : ExtEnv) (fs : FS) (input_path output_path : String)
    (remove_background enhance_quality ultra_quality : Bool) :
    Except PyErr Unit × FS × Option String × List Call :=
  match decodeFile ext fs input_path with
  | none => (Except.error PyErr.decodeErr, fs, none, [Call.decode input_path])
  | some img =>
    if remove_background then
      if !ext.removeOk then
        (Except.error PyErr.removeErr, fs, none, [Call.decode input_path, Call.removeBg])
      else
        let img_no_bg := Image.filter img ImgOp.removeBg
        if enhance_quality && !ext.preOk then
          (Except.error PyErr.preErr, fs, none,
            [Call.decode input_path, Call.removeBg, Call.preprocess true ultra_quality])
        else
          let img2 := if enhance_quality then preprocess_image img_no_bg true ultra_quality
                      else img_no_bg
          let tr0 := if enhance_quality then
                       [Call.decode input_path, Call.removeBg, Call.preprocess true ultra_quality]
                     else [Call.decode input_path, Call.removeBg]
          let temp := stagedPath input_path
          if !ext.saveOk then
            (Except.error PyErr.saveErr, fs, some temp, tr0 ++ [Call.save temp img2])
          else
            let fs1 := fsSet fs temp (Entry.file (FileData.png img2))
            if !ext.traceOk then
              (Except.error PyErr.traceErr, fs1, some temp,
                tr0 ++ [Call.save temp img2, Call.vtrace temp output_path])
            else
              (Except.ok (), fsSet fs1 output_path (Entry.file (FileData.svg temp)), some temp,
                tr0 ++ [Call.save temp img2, Call.vtrace temp output_path])
    else
      if enhance_quality then
        if !ext.preOk then
          (Except.error PyErr.preErr, fs, none,
            [Call.decode input_path, Call.preprocess false ultra_quality])
        else
          let img2 := preprocess_image img false ultra_quality
          let temp := stagedPath input_path
          if !ext.saveOk then
            (Except.error PyErr.saveErr, fs, some temp,
              [Call.decode input_path, Call.preprocess false ultra_quality,
               Call.save temp img2])
          else
            let fs1 := fsSet fs temp (Entry.file (FileData.png img2))
            if !ext.traceOk then
              (Except.error PyErr.traceErr, fs1, some temp,
                [Call.decode input_path, Call.preprocess false ultra_quality,
                 Call.save temp img2, Call.vtrace temp output_path])
            else
              (Except.ok (), fsSet fs1 output_path (Entry.file (FileData.svg temp)), some temp,
                [Call.decode input_path, Call.preprocess false ultra_quality,
                 Call.save temp img2, Call.vtrace temp output_path])
      else
        if !ext.traceOk then
          (Except.error PyErr.traceErr, fs, none,
            [Call.decode input_path, Call.vtrace input_path output_path])
        else
          (Except.ok (), fsSet fs output_path (Entry.file (FileData.svg input_path)), none,
            [Call.decode input_path, Call.vtrace input_path output_path])

/-- `convert_to_svg` (`src/converter.py` lines 67-171): validate the
input, create the output directory when missing, run the try block,
and in the `finally` clause delete the temp file when the variable is
truthy (a non-None, nonempty string) and the path exists.  The
vtracer parameter record is passed through opaquely and is omitted.
Intermediate parents made by `os.makedirs` are abstracted to the leaf
directory entry. -/
def convert_to_svg (ext : ExtEnv) (fs : FS) (input_path output_path : String)
    (remove_background enhance_quality ultra_quality : Bool) :
    Except PyErr Unit × FS × List Call :=
  if !fsExists fs input_path then
    (Except.error PyErr.fileNotFound, fs, [])
  else
    let output_dir := dirname output_path
    let fs1 := if output_dir != "" && !fsExists fs output_dir
               then fsSet fs output_dir Entry.dir else fs
    match convertBody ext fs1 input_path output_path
            remove_background enhance_quality ultra_quality with
    | (res, fs2, temp_file, calls) =>
      let fs3 :=
        match temp_file with
        | some t => if t != "" && fsExists fs2 t then fsErase fs2 t else fs2
        | none => fs2
      (res, fs3, calls)

/-- Python truthiness of an optional string argument (argparse leaves
absent options as `None`; empty strings are falsy too). -/
def strTruthy : Option String → Bool
  | none => false
  | some s => s != ""

/-- The output-path resolution of `main'` (`src/converter.py` lines
311-324): prefer `--output-dir` (creating it, `exist_ok=True`), else
the positional output, else a usage error. -/
def mainResolve (fs : FS) (input : String) (output_dir output : Option String) :
    Except Unit (FS × String) :=
  if strTruthy output_dir then
    let d := Option.getD output_dir ""
    let fs1 := if fsExists fs d then fs else fsSet fs d Entry.dir
    Except.ok (fs1, resolveOutputPath d input)
  else if strTruthy output then Except.ok (fs, Option.getD output "")
  else Except.error ()

/-- `main'` (`src/converter.py` lines 174-347), after argument parsing:
resolve the output path (exiting 1 with a usage error on the error
stream when neither output nor `--output-dir` is given), then run the
conversion, mapping success to exit code 0 and any exception to 1.
Returns (exit code, filesystem, calls made). -/
def main' (ext : ExtEnv) (fs : FS) (input : String) (output output_dir : Option String)
    (keep_bg no_enhance ultra_quality : Bool) : Nat × FS × List Call :=
  match mainResolve fs input output_dir output with
  | Except.error _ => (1, fs, [])
  | Except.ok (fs1, output_path) =>
    match convert_to_svg ext fs1 input output_path
            (!keep_bg) (!no_enhance) ultra_quality with
    | (Except.ok _, fs2, calls) => (0, fs2, calls)
    | (Except.error _, fs2, calls) => (1, fs2, calls)

/-- The staged-path derivation in the spec's words (for claim C3):
replace the input's `.png` suffix, and only that suffix, with
`_temp.png`. -/
def specStagedPath (p : String) : String :=
  if ".png".data.isSuffixOf p.data then
    String.mk (p.data.take (p.data.length - 4) ++ "_temp.png".data)
  else p

/-- The pattern of the staged-path substitution, `".png"`, as an
explicit character list (equal to `".png".data`). -/
def pngPat : List Char := ['.', 'p', 'n', 'g']

/-- The replacement `"_temp.png"` as an explicit character list. -/
def tempRepl : List Char := ['_', 't', 'e', 'm', 'p', '.', 'p', 'n', 'g']

/-- An environment in which every external step succeeds. -/
def extAllOk : ExtEnv := ExtEnv.mk true true true true true

/-- A one-file filesystem holding an RGB PNG at "in.png". -/
def fsDemo : FS := [("in.png", Entry.file (FileData.png (Image.mk "RGB" [])))]

/-- Checks that a call is not a save, or saves an image with an empty
operation history (no filter, contrast or saturation ever applied). -/
def savedOpsEmpty : Call → Bool
  | Call.save _ i => i.ops.isEmpty
  | _ => true

section Lemmas

@[simp] theorem fsLookup_nil (p : String) : fsLookup [] p = none := rfl

theorem fsLookup_cons (k : String) (v : Entry) (fs : FS) (q : String) :
    fsLookup ((k, v) :: fs) q = if q = k then some v else fsLookup fs q := by
  by_cases h : q = k
  · subst h; simp [fsLookup, List.lookup]
  · have hb : (q == k) = false := beq_eq_false_iff_ne.mpr h
    simp [fsLookup, List.lookup, hb, h]

@[simp] theorem fsExists_set_self (fs : FS) (p : String) (e : Entry) :
    fsExists (fsSet fs p e) p = true := by
  simp [fsExists, fsSet, fsLookup, List.lookup]

theorem fsLookup_erase_ne (fs : FS) (p q : String) (h : q ≠ p) :
    fsLookup (fsErase fs p) q = fsLookup fs q := by
  induction fs with
  | nil => rfl
  | cons kv rest ih =>
    obtain ⟨k, v⟩ := kv
    simp only [fsErase, List.filter_cons] at ih ⊢
    by_cases hk : k = p
    · have hb : ((k, v).1 != p) = false := by simp [hk]
      rw [hb, if_neg (by simp)]
      rw [fsLookup_cons, if_neg (hk ▸ h)]
      exact ih
    · have hb : ((k, v).1 != p) = true := by simp [hk]
      rw [hb, if_pos rfl]
      rw [fsLookup_cons, fsLookup_cons]
      by_cases hqk : q = k
      · simp [hqk]
      · simp [hqk, ih]

theorem fsLookup_set_ne (fs : FS) (p q : String) (e : Entry) (h : q ≠ p) :
    fsLookup (fsSet fs p e) q = fsLookup fs q := by
  rw [fsSet, fsLookup_cons, if_neg h]
  exact fsLookup_erase_ne fs p q h

theorem fsExists_set_ne (fs : FS) (p q : String) (e : Entry) (h : q ≠ p) :
    fsExists (fsSet fs p e) q = fsExists fs q := by
  simp [fsExists, fsLookup_set_ne fs p q e h]

@[simp] theorem fsExists_erase_self (fs : FS) (p : String) :
    fsExists (fsErase fs p) p = false := by
  induction fs with
  | nil => rfl
  | cons kv rest ih =>
    obtain ⟨k, v⟩ := kv
    simp only [fsErase, List.filter_cons] at ih ⊢
    by_cases hk : k = p
    · have hb : ((k, v).1 != p) = false := by simp [hk]
      rw [hb, if_neg (by simp)]
      exact ih
    · have hb : ((k, v).1 != p) = true := by simp [hk]
      rw [hb, if_pos rfl]
      simp only [fsExists] at ih ⊢
      rw [fsLookup_cons, if_neg (Ne.symm hk)]
      exact ih

theorem pyReplaceGo_nil (pat repl : List Char) (n : Nat) :
    pyReplaceGo pat repl n [] = [] := by
  cases n <;> rfl

theorem pyReplaceGo_ne_nil (pat repl : List Char) (hr : repl ≠ []) (n : Nat)
    (l : List Char) (hl : l ≠ []) (hn : 0 < n) :
    pyReplaceGo pat repl n l ≠ [] := by
  cases l with
  | nil => exact absurd rfl hl
  | cons c rest =>
    cases n with
    | zero => omega
    | succ m =>
      simp only [pyReplaceGo]
      split
      · simp [hr]
      · simp

theorem string_eq_empty_iff (s : String) : s = "" ↔ s.data = [] := by
  constructor
  · intro h; rw [h]
  · intro h
    cases s with
    | mk d =>
      cases h
      rfl

theorem string_ne_empty_iff (s : String) : s ≠ "" ↔ s.data ≠ [] :=
  not_congr (string_eq_empty_iff s)

theorem stagedPath_ne_empty (ip : String) (h : ip ≠ "") : stagedPath ip ≠ "" := by
  rw [string_ne_empty_iff] at h ⊢
  show pyReplaceGo ".png".data "_temp.png".data ip.data.length ip.data ≠ []
  exact pyReplaceGo_ne_nil _ _ (by decide) _ _ h (by
    cases hd : ip.data with
    | nil => exact absurd hd h
    | cons c rest => simp)

theorem pyReplaceGo_not_contains (pat repl : List Char) :
    ∀ (l : List Char) (n : Nat), containsSub pat l = false →
      pyReplaceGo pat repl n l = l := by
  intro l
  induction l with
  | nil => intro n _; exact pyReplaceGo_nil pat repl n
  | cons c rest ih =>
    intro n h
    simp only [containsSub, Bool.or_eq_false_iff] at h
    cases n with
    | zero => rfl
    | succ m =>
      simp only [pyReplaceGo]
      have hnc : ¬ (pat ≠ [] ∧ pat.isPrefixOf (c :: rest) = true) := by
        intro hc
        rw [hc.2] at h
        simp at h
      rw [if_neg hnc, ih m h.2]

theorem stagedPath_of_no_png (ip : String)
    (h : containsSub ".png".data ip.data = false) : stagedPath ip = ip := by
  show String.mk (pyReplaceGo ".png".data "_temp.png".data ip.data.length ip.data) = ip
  rw [pyReplaceGo_not_contains _ _ _ _ h]

theorem preprocess_image_no_edges (img : Image) (u : Bool) :
    preprocess_image img false u = Image.mk "RGBA" img.ops := by
  obtain ⟨m, ops⟩ := img
  by_cases hm : m = "RGBA" <;>
    simp [preprocess_image, Image.convert, hm]

/-- In every exit of the try block: either the `temp_file` variable
holds the staged path, or it is `none` and (provided no staged
artifact pre-existed and the output path is not the staged path) the
staged path is absent from the resulting filesystem. -/
theorem convertBody_staged (ext : ExtEnv) (fs : FS) (ip op' : String) (rb eq' uq : Bool)
    (h3 : fsExists fs (stagedPath ip) = false) (h5 : op' ≠ stagedPath ip) :
    (convertBody ext fs ip op' rb eq' uq).2.2.1 = some (stagedPath ip) ∨
    ((convertBody ext fs ip op' rb eq' uq).2.2.1 = none ∧
      fsExists (convertBody ext fs ip op' rb eq' uq).2.1 (stagedPath ip) = false) := by
  have h5' : stagedPath ip ≠ op' := Ne.symm h5
  obtain ⟨ed, er, ep, es, et⟩ := ext
  cases hd : decodeFile (ExtEnv.mk ed er ep es et) fs ip with
  | none =>
    right
    simp [convertBody, hd, h3]
  | some img =>
    cases rb <;> cases eq' <;> cases er <;> cases ep <;> cases es <;> cases et <;>
      simp [convertBody, hd, h3, h5', fsExists_set_ne, fsExists_set_self]

/-- When the only occurrence of ".png" in the input starts at its
final four characters, the left-to-right replacement scan rewrites
exactly that suffix. -/
theorem pyReplaceGo_suffix :
    ∀ (stem : List Char) (n : Nat), stem.length + 4 ≤ n →
      (∀ i, i < stem.length →
        pngPat.isPrefixOf (List.drop i (stem ++ pngPat)) = false) →
      pyReplaceGo pngPat tempRepl n (stem ++ pngPat) = stem ++ tempRepl := by
  intro stem
  induction stem with
  | nil =>
    intro n hn _
    cases n with
    | zero => omega
    | succ m =>
      simp only [List.nil_append]
      show pyReplaceGo pngPat tempRepl (m + 1) ('.' :: ['p', 'n', 'g']) = tempRepl
      simp only [pyReplaceGo]
      rw [if_pos (by constructor <;> decide)]
      have : List.drop (pngPat.length - 1) ['p', 'n', 'g'] = [] := by decide
      rw [this, pyReplaceGo_nil, List.append_nil]
  | cons c stem' ih =>
    intro n hn hpre
    cases n with
    | zero => omega
    | succ m =>
      have h0 := hpre 0 (by simp)
      simp only [List.drop_zero, List.cons_append] at h0
      show pyReplaceGo pngPat tempRepl (m + 1) (c :: (stem' ++ pngPat))
        = c :: (stem' ++ tempRepl)
      simp only [pyReplaceGo]
      have hnc : ¬ (pngPat ≠ [] ∧ pngPat.isPrefixOf (c :: (stem' ++ pngPat)) = true) := by
        intro hc
        rw [hc.2] at h0
        simp at h0
      rw [if_neg hnc]
      rw [ih m (by simpa using Nat.le_of_succ_le_succ (by simpa using hn)) ?hp]
      case hp =>
        intro i hi
        have := hpre (i + 1) (by simpa using Nat.succ_lt_succ hi)
        simpa [List.cons_append, List.drop_succ_cons] using this

theorem fsExists_set_outer (fs : FS) (p q : String) (e : Entry)
    (h : fsExists fs q = true) : fsExists (fsSet fs p e) q = true := by
  by_cases hqp : q = p
  · subst hqp; exact fsExists_set_self fs q e
  · rw [fsExists_set_ne fs p q e hqp]; exact h

theorem fsLookup_after_makedirs (fs : FS) (ip op' : String) (v : Entry)
    (hin : fsLookup fs ip = some v) :
    fsLookup (if dirname op' != "" && !fsExists fs (dirname op')
      then fsSet fs (dirname op') Entry.dir else fs) ip = some v := by
  split
  · next hcond =>
    have hne : ip ≠ dirname op' := by
      intro he
      rw [Bool.and_eq_true] at hcond
      rw [← he] at hcond
      simp [fsExists, hin] at hcond
    rw [fsLookup_set_ne fs (dirname op') ip Entry.dir hne]
    exact hin
  · exact hin

theorem string_mk_append (a b : List Char) :
    String.mk a ++ String.mk b = String.mk (a ++ b) := rfl

theorem afterLastSlash_no_slash (l : List Char) (h : '/' ∉ l) :
    afterLastSlash l = l := by
  cases l with
  | nil => rfl
  | cons c rest =>
    have hc : ¬ c = '/' := fun he => h (by rw [he]; exact List.mem_cons_self _ _)
    have hr : '/' ∉ rest := fun he => h (List.mem_cons_of_mem _ he)
    simp [afterLastSlash, hc, hr]

theorem afterLastSlash_append (pre rest : List Char) (h : '/' ∉ rest) :
    afterLastSlash (pre ++ '/' :: rest) = rest := by
  induction pre with
  | nil =>
    simp [afterLastSlash, h]
  | cons c pre' ih =>
    have hm : '/' ∈ pre' ++ '/' :: rest :=
      List.mem_append.mpr (Or.inr (List.mem_cons_self _ _))
    simp only [List.cons_append, afterLastSlash, List.append_eq, hm, if_true]
    exact ih

theorem upToLastDot_append (name ext2 : List Char) (hed : '.' ∉ ext2) :
    upToLastDot (name ++ '.' :: ext2) = name := by
  induction name with
  | nil => simp [upToLastDot, hed]
  | cons c name' ih =>
    have hm : '.' ∈ name' ++ '.' :: ext2 :=
      List.mem_append.mpr (Or.inr (List.mem_cons_self _ _))
    simp only [List.cons_append, upToLastDot, List.append_eq, hm, if_true]
    rw [ih]

theorem splitextRoot_name_ext (name ext2 : List Char) (hn : name ≠ [])
    (hnd : '.' ∉ name) (hed : '.' ∉ ext2) :
    splitextRoot (name ++ '.' :: ext2) = name := by
  cases name with
  | nil => exact absurd rfl hn
  | cons c name' =>
    have hc : (c == '.') = false := by
      have hcc : ¬ c = '.' := fun he => hnd (by rw [he]; exact List.mem_cons_self _ _)
      simpa using hcc
    have hm : '.' ∈ c :: (name' ++ '.' :: ext2) :=
      List.mem_cons_of_mem _ (List.mem_append.mpr (Or.inr (List.mem_cons_self _ _)))
    have hu : upToLastDot (c :: (name' ++ '.' :: ext2)) = c :: name' := by
      have h' := upToLastDot_append (c :: name') ext2 hed
      simpa [List.cons_append] using h'
    simp only [splitextRoot, List.cons_append, List.takeWhile_cons, List.dropWhile_cons,
      hc, Bool.false_eq_true, if_false]
    rw [if_pos hm, List.nil_append, hu]

end Lemmas

/-- C5: for every input path that does not exist on the filesystem,
`convert_to_svg` raises the not-found error, makes no external call,
and leaves the filesystem unchanged (so no output file and no output
directory is created). -/
theorem missing_input_rejected_early (ext : ExtEnv) (fs : FS) (ip op' : String)
    (rb eq' uq : Bool) (h : fsExists fs ip = false) :
    convert_to_svg ext fs ip op' rb eq' uq = (Except.error PyErr.fileNotFound, fs, []) := by
  simp [convert_to_svg, h]

/-- Witness for C5 at a concrete input: the empty filesystem has no
"missing.png", and the conversion returns the not-found error with the
filesystem untouched and no calls made. -/
theorem missing_input_rejected_early_witness :
    fsExists [] "missing.png" = false ∧
    convert_to_svg (ExtEnv.mk true true true true true) [] "missing.png" "out.svg"
        true true false
      = (Except.error PyErr.fileNotFound, [], []) :=
  ⟨by decide,
    missing_input_rejected_early (ExtEnv.mk true true true true true) [] "missing.png"
      "out.svg" true true false (by decide)⟩

/-- C6: for every conversion invoked with `remove_background = false`
(the `--keep-bg` flag), the Background Remover is invoked zero times,
whatever the filesystem, the other options, and however the external
steps succeed or raise. -/
theorem keepbg_never_calls_remover (ext : ExtEnv) (fs : FS) (ip op' : String)
    (eq' uq : Bool) :
    List.count Call.removeBg (convert_to_svg ext fs ip op' false eq' uq).2.2 = 0 := by
  obtain ⟨ed, er, ep, es, et⟩ := ext
  cases hex : fsExists fs ip with
  | false => simp [convert_to_svg, hex]
  | true =>
    simp only [convert_to_svg, hex, Bool.not_true, Bool.false_eq_true, if_false]
    set fs1 := if dirname op' != "" && !fsExists fs (dirname op')
               then fsSet fs (dirname op') Entry.dir else fs with hfs1
    cases hd : decodeFile (ExtEnv.mk ed er ep es et) fs1 ip with
    | none => simp [convertBody, hd]
    | some img =>
      cases eq' <;> cases ep <;> cases es <;> cases et <;>
        simp [convertBody, hd, List.count_cons]

/-- C7: for every image and every `ultra_quality` value,
`preprocess_image` with `enhance_edges = false` returns exactly the
RGBA-normalized input: same operation history (no filter, contrast,
or saturation operation is appended). -/
theorem preprocess_no_edges_is_noop (img : Image) (uq : Bool) :
    preprocess_image img false uq = Image.convert img "RGBA" ∧
    (preprocess_image img false uq).ops = img.ops := by
  refine ⟨preprocess_image_no_edges img uq, ?_⟩
  rw [preprocess_image_no_edges img uq]

/-- C8: for every image, the ultra-quality path applies, in order,
gaussian blur of radius 0.5, unsharp mask (radius 2, percent 150,
threshold 3), contrast 1.4 and color saturation 1.1; the standard path
applies sharpen then contrast 1.2. -/
theorem preprocess_filter_chains (img : Image) :
    (preprocess_image img true true).ops
      = img.ops ++ [ImgOp.gaussianBlur 0.5, ImgOp.unsharpMask 2 150 3,
                    ImgOp.contrast 1.4, ImgOp.color 1.1] ∧
    (preprocess_image img true false).ops
      = img.ops ++ [ImgOp.sharpen, ImgOp.contrast 1.2] := by
  obtain ⟨m, ops⟩ := img
  constructor <;> by_cases hm : m = "RGBA" <;>
    simp [preprocess_image, Image.convert, Image.filter, hm]

/-- C10: when both the positional output and `--output-dir` are
omitted, `main` exits with code 1 via the usage-error branch, without
invoking the conversion (no calls) and without touching the
filesystem. -/
theorem usage_error_without_output (ext : ExtEnv) (fs : FS) (input : String)
    (kb ne' uq : Bool) :
    main' ext fs input none none kb ne' uq = (1, fs, []) := by
  simp [main', mainResolve, strTruthy]

/-- C1: for every run of `convert_to_svg` on an existing, non-empty
input path with no pre-existing staged artifact — and an output path
that neither is the staged path nor has it as its directory — the
staged temporary file is absent from the filesystem when the call
returns, on every exit path: success and each of the decode,
background-removal, preprocessing, encode and vectorization
exceptions (all values of `ExtEnv`). -/
theorem staged_file_deleted_all_paths (ext : ExtEnv) (fs : FS) (ip op' : String)
    (rb eq' uq : Bool)
    (h1 : fsExists fs ip = true) (h2 : ip ≠ "")
    (h3 : fsExists fs (stagedPath ip) = false)
    (h4 : dirname op' ≠ stagedPath ip) (h5 : op' ≠ stagedPath ip) :
    fsExists (convert_to_svg ext fs ip op' rb eq' uq).2.1 (stagedPath ip) = false := by
  simp only [convert_to_svg, h1, Bool.not_true, Bool.false_eq_true, if_false]
  set fs1 := if dirname op' != "" && !fsExists fs (dirname op')
             then fsSet fs (dirname op') Entry.dir else fs with hf1
  have h3' : fsExists fs1 (stagedPath ip) = false := by
    rw [hf1]
    split
    · rw [fsExists_set_ne fs (dirname op') (stagedPath ip) Entry.dir (Ne.symm h4)]
      exact h3
    · exact h3
  have hst := convertBody_staged ext fs1 ip op' rb eq' uq h3' h5
  rcases hcb : convertBody ext fs1 ip op' rb eq' uq with ⟨res, fs2, temp, calls⟩
  rw [hcb] at hst
  dsimp only at hst ⊢
  rcases hst with htemp | ⟨htemp, hfs⟩
  · subst htemp
    dsimp only
    have hne : (stagedPath ip != "") = true := by
      simpa using stagedPath_ne_empty ip h2
    cases hex : fsExists fs2 (stagedPath ip) with
    | true => simp [hne, hex]
    | false => simp [hne, hex]
  · subst htemp
    dsimp only
    exact hfs

/-- Witness for C1 at a concrete input: an existing "in.png", output
"out.svg", background removal and enhancement on, with the tracing
step raising; afterwards "in_temp.png" does not exist. -/
theorem staged_file_deleted_all_paths_witness :
    fsExists fsDemo "in.png" = true ∧
    (("in.png" : String) != "") = true ∧
    fsExists fsDemo (stagedPath "in.png") = false ∧
    (dirname "out.svg" != stagedPath "in.png") = true ∧
    (("out.svg" : String) != stagedPath "in.png") = true ∧
    fsExists (convert_to_svg (ExtEnv.mk true true true true false) fsDemo
        "in.png" "out.svg" true true false).2.1 (stagedPath "in.png") = false :=
  ⟨by decide, by decide, by decide, by decide, by decide,
    staged_file_deleted_all_paths (ExtEnv.mk true true true true false) fsDemo
      "in.png" "out.svg" true true false
      (by decide) (by decide) (by decide) (by decide) (by decide)⟩

/-- Counterexample to C2 as stated: in a full successful run with
background removal off and quality enhancement on, the Preprocessor
is called with `enhance_edges = false` and the image saved to the
staged file has an empty operation history — no contrast adjustment
is applied to the working image, contradicting "only contrast
adjustment and staging occur on the working image". -/
theorem keepbg_preprocess_no_contrast_cex :
    (convert_to_svg extAllOk fsDemo "in.png" "out.svg" false true false).2.2
      = [Call.decode "in.png", Call.preprocess false false,
         Call.save "in_temp.png" (Image.mk "RGBA" []),
         Call.vtrace "in_temp.png" "out.svg"] ∧
    List.all (convert_to_svg extAllOk fsDemo "in.png" "out.svg" false true false).2.2
      savedOpsEmpty = true := by
  decide

/-- C2 (amended): with `remove_background = false` and quality
enhancement on, every Preprocessor invocation has `enhance_edges`
forced to `false` (zero calls with it `true`), and the image staged
for vectorization is only RGBA-normalized: its operation history is
exactly the input image's, with no contrast (or any other) operation
appended. -/
theorem keepbg_preprocess_enhance_off (ext : ExtEnv) (fs : FS) (ip op' : String)
    (uq : Bool) (img : Image)
    (hin : fsLookup fs ip = some (Entry.file (FileData.png img)))
    (hd : ext.decodeOk = true) (hp : ext.preOk = true) (hs : ext.saveOk = true) :
    Call.preprocess false uq ∈ (convert_to_svg ext fs ip op' false true uq).2.2 ∧
    List.count (Call.preprocess true false)
      (convert_to_svg ext fs ip op' false true uq).2.2 = 0 ∧
    List.count (Call.preprocess true true)
      (convert_to_svg ext fs ip op' false true uq).2.2 = 0 ∧
    Call.save (stagedPath ip) (Image.mk "RGBA" img.ops)
      ∈ (convert_to_svg ext fs ip op' false true uq).2.2 := by
  obtain ⟨ed, er, ep, es, et⟩ := ext
  dsimp only at hd hp hs
  subst hd; subst hp; subst hs
  have hex : fsExists fs ip = true := by simp [fsExists, hin]
  simp only [convert_to_svg, hex, Bool.not_true, Bool.false_eq_true, if_false]
  set fs1 := if dirname op' != "" && !fsExists fs (dirname op')
             then fsSet fs (dirname op') Entry.dir else fs with hf1
  have hin1 : fsLookup fs1 ip = some (Entry.file (FileData.png img)) := by
    rw [hf1]
    split
    · next hcond =>
      have hne : ip ≠ dirname op' := by
        intro he
        rw [Bool.and_eq_true] at hcond
        rw [← he] at hcond
        simp [hex] at hcond
      rw [fsLookup_set_ne fs (dirname op') ip Entry.dir hne]
      exact hin
    · exact hin
  have hdec : decodeFile (ExtEnv.mk true er true true et) fs1 ip = some img := by
    simp [decodeFile, hin1]
  cases et <;>
    simp [convertBody, hdec, preprocess_image_no_edges, List.count_cons]

/-- Witness for C2's amended theorem at a concrete input, in a fully
successful run with `ultra_quality = false`. -/
theorem keepbg_preprocess_enhance_off_witness :
    fsLookup fsDemo "in.png" = some (Entry.file (FileData.png (Image.mk "RGB" []))) ∧
    (Call.preprocess false false
        ∈ (convert_to_svg extAllOk fsDemo "in.png" "out.svg" false true false).2.2 ∧
      List.count (Call.preprocess true false)
        (convert_to_svg extAllOk fsDemo "in.png" "out.svg" false true false).2.2 = 0 ∧
      List.count (Call.preprocess true true)
        (convert_to_svg extAllOk fsDemo "in.png" "out.svg" false true false).2.2 = 0 ∧
      Call.save (stagedPath "in.png") (Image.mk "RGBA" (Image.mk "RGB" []).ops)
        ∈ (convert_to_svg extAllOk fsDemo "in.png" "out.svg" false true false).2.2) :=
  ⟨by decide,
    keepbg_preprocess_enhance_off extAllOk fsDemo "in.png" "out.svg" false
      (Image.mk "RGB" []) (by decide) rfl rfl rfl⟩

/-- Counterexample to C3 as stated: on input "a.png.png" the code's
`str.replace` rewrites every ".png" occurrence, producing
"a_temp.png_temp.png", while suffix-only substitution (the spec's
wording, `specStagedPath`) would produce "a.png_temp.png". -/
theorem staged_path_not_suffix_only_cex :
    stagedPath "a.png.png" = "a_temp.png_temp.png" ∧
    specStagedPath "a.png.png" = "a.png_temp.png" ∧
    stagedPath "a.png.png" ≠ specStagedPath "a.png.png" := by
  decide

/-- C3 (amended): the staged path replaces every occurrence of ".png"
in the input path with "_temp.png"; for the common case in which
".png" occurs only as the input's final four characters, this is
exactly the suffix substitution the claim describes. -/
theorem staged_path_suffix_substitution (stem : List Char)
    (h : ∀ i, i < stem.length →
      pngPat.isPrefixOf (List.drop i (stem ++ pngPat)) = false) :
    stagedPath (String.mk (stem ++ pngPat)) = String.mk (stem ++ tempRepl) := by
  show String.mk (pyReplaceGo ".png".data "_temp.png".data
    (stem ++ pngPat).length (stem ++ pngPat)) = String.mk (stem ++ tempRepl)
  rw [show (".png".data : List Char) = pngPat from rfl,
      show ("_temp.png".data : List Char) = tempRepl from rfl]
  rw [pyReplaceGo_suffix stem (stem ++ pngPat).length
    (by rw [List.length_append]; exact Nat.le_refl _) h]

/-- Witness for C3's amended theorem: on "logo.png" (the only ".png"
occurrence is the suffix) the staged path is "logo_temp.png". -/
theorem staged_path_suffix_substitution_witness :
    stagedPath "logo.png" = "logo_temp.png" := by
  have h := staged_path_suffix_substitution "logo".data (by decide)
  have e1 : String.mk ("logo".data ++ pngPat) = "logo.png" := by decide
  have e2 : String.mk ("logo".data ++ tempRepl) = "logo_temp.png" := by decide
  rw [e1, e2] at h
  exact h

/-- C4: when staging occurs (background removal or enhancement on)
and the input path contains no ".png" substring, the staged path
equals the input path itself, the processed image is saved over the
input file, and the cleanup deletes the input file: it is absent from
the final filesystem. -/
theorem no_png_substring_overwrites_input (ext : ExtEnv) (fs : FS) (ip op' : String)
    (rb eq' uq : Bool) (img : Image)
    (h0 : containsSub ".png".data ip.data = false)
    (hin : fsLookup fs ip = some (Entry.file (FileData.png img)))
    (hstage : rb = true ∨ eq' = true)
    (hdok : ext.decodeOk = true) (hrok : rb = true → ext.removeOk = true)
    (hpok : eq' = true → ext.preOk = true) (hsok : ext.saveOk = true)
    (hns : ip ≠ "") :
    stagedPath ip = ip ∧
    (∃ i, Call.save ip i ∈ (convert_to_svg ext fs ip op' rb eq' uq).2.2) ∧
    fsExists (convert_to_svg ext fs ip op' rb eq' uq).2.1 ip = false := by
  have hid : stagedPath ip = ip := stagedPath_of_no_png ip h0
  have hnsb : (ip != "") = true := by simpa using hns
  obtain ⟨ed, er, ep, es, et⟩ := ext
  dsimp only at hdok hrok hpok hsok
  subst hdok; subst hsok
  have hex : fsExists fs ip = true := by simp [fsExists, hin]
  refine ⟨hid, ?_⟩
  simp only [convert_to_svg, hex, Bool.not_true, Bool.false_eq_true, if_false]
  set fs1 := if dirname op' != "" && !fsExists fs (dirname op')
             then fsSet fs (dirname op') Entry.dir else fs with hf1
  have hin1 : fsLookup fs1 ip = some (Entry.file (FileData.png img)) := by
    rw [hf1]
    exact fsLookup_after_makedirs fs ip op' _ hin
  have hdec : decodeFile (ExtEnv.mk true er ep true et) fs1 ip = some img := by
    simp [decodeFile, hin1]
  rcases hstage with hrb | heq
  · subst hrb
    have her : er = true := hrok rfl
    subst her
    cases eq' with
    | true =>
      have hep : ep = true := hpok rfl
      subst hep
      cases et <;>
        simp [convertBody, hdec, hid, hnsb, fsExists_set_self, fsExists_set_outer,
          List.mem_cons]
    | false =>
      cases et <;>
        simp [convertBody, hdec, hid, hnsb, fsExists_set_self, fsExists_set_outer,
          List.mem_cons]
  · subst heq
    have hep : ep = true := hpok rfl
    subst hep
    cases rb with
    | true =>
      have her : er = true := hrok rfl
      subst her
      cases et <;>
        simp [convertBody, hdec, hid, hnsb, fsExists_set_self, fsExists_set_outer,
          List.mem_cons]
    | false =>
      cases et <;>
        simp [convertBody, hdec, hid, hnsb, fsExists_set_self, fsExists_set_outer,
          List.mem_cons]

/-- Witness for C4 at a concrete input: an existing file "noext"
(no ".png" substring), with background removal and enhancement on and
every external step succeeding; the staged path equals "noext", some
image is saved over it, and "noext" is gone afterwards. -/
theorem no_png_substring_overwrites_input_witness :
    containsSub ".png".data ("noext" : String).data = false ∧
    (stagedPath "noext" = "noext" ∧
      (∃ i, Call.save "noext" i
        ∈ (convert_to_svg extAllOk [("noext", Entry.file (FileData.png (Image.mk "RGB" [])))]
            "noext" "out.svg" true true false).2.2) ∧
      fsExists (convert_to_svg extAllOk
          [("noext", Entry.file (FileData.png (Image.mk "RGB" [])))]
          "noext" "out.svg" true true false).2.1 "noext" = false) :=
  ⟨by decide,
    no_png_substring_overwrites_input extAllOk
      [("noext", Entry.file (FileData.png (Image.mk "RGB" [])))]
      "noext" "out.svg" true true false (Image.mk "RGB" [])
      (by decide) (by decide) (Or.inl rfl) rfl (fun _ => rfl) (fun _ => rfl) rfl
      (by decide)⟩

/-- C9: with `--output-dir`, the resolved output path is the input's
basename with its extension replaced by ".svg", joined to the output
directory — both for a bare filename `name.ext` and for a path
`pre/name.ext` (for a well-formed name and extension: nonempty
dot-free, slash-free name and dot-free, slash-free extension). -/
theorem output_dir_resolution (dir : String) (pre name ext2 : List Char)
    (hn : name ≠ []) (hnd : '.' ∉ name) (hns : '/' ∉ name)
    (hed : '.' ∉ ext2) (hes : '/' ∉ ext2) :
    resolveOutputPath dir (String.mk (name ++ '.' :: ext2))
      = joinPath dir (String.mk (name ++ ".svg".data)) ∧
    resolveOutputPath dir (String.mk (pre ++ '/' :: (name ++ '.' :: ext2)))
      = joinPath dir (String.mk (name ++ ".svg".data)) := by
  have hslash : '/' ∉ name ++ '.' :: ext2 := by
    intro h
    rcases List.mem_append.mp h with h' | h'
    · exact hns h'
    · rcases List.mem_cons.mp h' with h'' | h''
      · exact absurd h'' (by decide)
      · exact hes h''
  have hsvg : String.mk (splitextRoot (name ++ '.' :: ext2)) ++ ".svg"
      = String.mk (name ++ ".svg".data) := by
    rw [splitextRoot_name_ext name ext2 hn hnd hed]
    rw [show (".svg" : String) = String.mk ".svg".data from rfl, string_mk_append]
  constructor
  · show joinPath dir
      (String.mk (splitextRoot (afterLastSlash (name ++ '.' :: ext2))) ++ ".svg") = _
    rw [afterLastSlash_no_slash _ hslash, hsvg]
  · show joinPath dir
      (String.mk (splitextRoot (afterLastSlash (pre ++ '/' :: (name ++ '.' :: ext2)))) ++ ".svg")
      = _
    rw [afterLastSlash_append pre _ hslash, hsvg]

/-- Witness for C9, the spec's own example: input "logo.png" with
output directory "out/" resolves to "out/logo.svg". -/
theorem output_dir_resolution_witness :
    resolveOutputPath "out/" "logo.png" = "out/logo.svg" := by
  have h := (output_dir_resolution "out/" [] "logo".data "png".data
    (by decide) (by decide) (by decide) (by decide) (by decide)).1
  have e1 : String.mk ("logo".data ++ '.' :: "png".data) = "logo.png" := by decide
  have e2 : joinPath "out/" (String.mk ("logo".data ++ ".svg".data)) = "out/logo.svg" := by
    decide
  rw [e1, e2] at h
  exact h

